import Mathlib
/-!
Verification of the event-based price-history core of the price_scraper
repository (src/price_monitor.py, src/ean_price_monitor.py,
src/migrate_price_history.py, src/price_analyzer.py).

Modelling conventions:
* Money amounts are exact rationals (`ℚ`); the Python code manipulates
  floats, but every comparison and update in the core is of the plain
  arithmetic kind modelled here.
* Calendar dates are abstracted to `Nat`; the Python code compares ISO
  `YYYY-MM-DD` strings lexicographically, which agrees with the order on
  day numbers.
* Python dicts keyed by strings are modelled as association lists in
  insertion order (Python dicts iterate in insertion order).
* A Python value that may be absent/None is an `Option`.
-/

/-- Python `Int.fdiv`-style floor of a rational, used to model the builtin
`round`: `q.num / q.den` with flooring division. -/
def ratFloor (q : ℚ) : ℤ := Int.fdiv q.num q.den

/-- Python's builtin banker's rounding to an integer: round half to even. -/
def roundHalfEven (x : ℚ) : ℤ :=
  let f := ratFloor x
  let r := x - (f : ℚ)
  if r < 1/2 then f
  else if 1/2 < r then f + 1
  else if f % 2 = 0 then f else f + 1

/-- Python `round(x, 1)` (ties to even), on exact rationals. -/
def round1 (x : ℚ) : ℚ := (roundHalfEven (x * 10) : ℚ) / 10

/-- A price-change event appended to `price_changes` by
`PriceMonitor.detect_price_changes` and by `migrate_price_history`
(src/price_monitor.py, src/migrate_price_history.py).  `initial` mirrors the
dict carrying `"type": "initial"` with a `price` key; `change` mirrors the
dict carrying `from`/`to`/`change_pct`. -/
inductive PEvent where
  | initial (date : Nat) (price : ℚ) (original_price discount_pct : Option ℚ)
  | change (date : Nat) (fromPrice toPrice change_pct : ℚ)
      (original_price discount_pct : Option ℚ)
deriving DecidableEq

/-- The `date` key, present on every event. -/
def eventDate : PEvent → Nat
  | .initial d _ _ _ => d
  | .change d _ _ _ _ _ => d

/-- The price an event establishes: `price` for an Initial event, `to` for a
Change event. -/
def eventNewPrice : PEvent → ℚ
  | .initial _ p _ _ => p
  | .change _ _ t _ _ _ => t

/-- Whether the event carries `"type": "initial"`. -/
def isInitialEvent : PEvent → Bool
  | .initial _ _ _ _ => true
  | .change _ _ _ _ _ _ => false

/-- The mutable `current` dict of a product
(src/price_monitor.py lines 222-230). -/
structure CurrentState where
  price : ℚ
  original_price : Option ℚ
  discount_pct : Option ℚ
  since : Nat
deriving DecidableEq

/-- The `all_time_lowest` dict of a product
(src/price_monitor.py lines 232-238, src/migrate_price_history.py). -/
structure AllTimeLowest where
  price : ℚ
  date : Nat
  original_price : Option ℚ
deriving DecidableEq

/-- One product's entry in `price_history`
(src/price_monitor.py lines 129-136). -/
structure ProductHistory where
  name : String
  purchase_url : String
  current : Option CurrentState
  all_time_lowest : Option AllTimeLowest
  price_changes : List PEvent
deriving DecidableEq

/-- One scraped observation for one product, as consumed by
`PriceMonitor.detect_price_changes`.  `url` stands for the
`purchase_url`/`url` fallback chain. -/
structure Obs where
  name : String
  url : String
  current_price : Option ℚ
  original_price : Option ℚ
  discount_percent : Option ℚ
deriving DecidableEq

/-- Update of `all_time_lowest` (src/price_monitor.py lines 232-238): the
stored value is overwritten when absent or strictly above the observed
price.  `lowest_price` is read before the update, exactly as in the code. -/
def updateATL (ph : ProductHistory) (cp : ℚ) (today : Nat)
    (orig : Option ℚ) : ProductHistory :=
  let a' : AllTimeLowest := { price := cp, date := today, original_price := orig }
  match ph.all_time_lowest with
  | none => { ph with all_time_lowest := some a' }
  | some a =>
    if cp < a.price then { ph with all_time_lowest := some a' }
    else ph

/-- One iteration of the product loop of `PriceMonitor.detect_price_changes`
(src/price_monitor.py lines 121-238), acting on the product's entry of
`price_history` (`none` when the key is absent).  `today` stands for
`datetime.now().strftime("%Y-%m-%d")`.  The returned `Bool` records whether
a change was appended to the notification list (lines 205-218).
`if not current_price: continue` skips a missing price and the falsy price
`0`. -/
def recordObservation (entry : Option ProductHistory) (p : Obs) (today : Nat) :
    Option ProductHistory × Bool :=
  match p.current_price with
  | none => (entry, false)
  | some cp =>
    if cp = 0 then (entry, false)
    else
      let ph0 : ProductHistory := entry.getD
        ({ name := p.name, purchase_url := p.url, current := none,
           all_time_lowest := none, price_changes := [] })
      let ph1 : ProductHistory := { ph0 with name := p.name, purchase_url := p.url }
      match ph1.current with
      | none =>
        let ev : PEvent := PEvent.initial today cp p.original_price p.discount_percent
        let ph2 := { ph1 with price_changes := ph1.price_changes ++ [ev] }
        let c : CurrentState :=
          { price := cp, original_price := p.original_price,
            discount_pct := p.discount_percent, since := today }
        let ph3 := { ph2 with current := some c }
        (some (updateATL ph3 cp today p.original_price), false)
      | some cur =>
        if 1/100 < |cp - cur.price| then
          let pct := round1 ((cp - cur.price) / cur.price * 100)
          let ev : PEvent := PEvent.change today cur.price cp pct p.original_price p.discount_percent
          let ph2 := { ph1 with price_changes := ph1.price_changes ++ [ev] }
          let c : CurrentState :=
            { price := cp, original_price := p.original_price,
              discount_pct := p.discount_percent, since := today }
          let ph3 := { ph2 with current := some c }
          (some (updateATL ph3 cp today p.original_price), true)
        else
          let c : CurrentState :=
            { price := cp, original_price := p.original_price,
              discount_pct := p.discount_percent, since := cur.since }
          let ph3 := { ph1 with current := some c }
          (some (updateATL ph3 cp today p.original_price), false)

/-- Folding `recordObservation` over a sequence of dated observations for one
product: repeated monitoring cycles of `detect_price_changes`. -/
def ingestAll (entry : Option ProductHistory) (l : List (Obs × Nat)) :
    Option ProductHistory :=
  l.foldl (fun e od => (recordObservation e od.1 od.2).1) entry

/-- A bare observation carrying only a price (name/url irrelevant to the
history logic under verification). -/
def obsOf (q : ℚ) : Obs :=
  { name := "", url := "", current_price := some q,
    original_price := none, discount_percent := none }

/-- Ingesting a list of dated prices for one product, starting from an
untracked product. -/
def ingestPrices (l : List (ℚ × Nat)) : Option ProductHistory :=
  ingestAll none (l.map fun qd => (obsOf qd.1, qd.2))

/-- Per-product body of `PriceMonitor.cleanup_old_history`
(src/price_monitor.py lines 247-262).  `cutoffDate` abstracts the ISO string
`now - days_to_keep`; `e.get("date", "") >= cutoff_date` becomes
`cutoffDate ≤ eventDate e`. -/
def cleanupProduct (cutoffDate : Nat) (ph : ProductHistory) : ProductHistory :=
  if 1 < ph.price_changes.length then
    let newChanges := ph.price_changes.filter fun e => cutoffDate ≤ eventDate e
    let newChanges :=
      if newChanges = [] then
        match ph.price_changes.getLast? with
        | some e => [e]
        | none => newChanges
      else newChanges
    { ph with price_changes := newChanges }
  else ph

/-- `PriceMonitor.cleanup_old_history` over the whole store
(src/price_monitor.py lines 242-267). -/
def cleanupOldHistory (cutoffDate : Nat) (store : List (String × ProductHistory)) :
    List (String × ProductHistory) :=
  store.map fun kp => (kp.1, cleanupProduct cutoffDate kp.2)

/-- Invariant of `detect_price_changes` steps: a tracked product has a
`current` state and its first event is the Initial one. -/
def headInitialInv (entry : Option ProductHistory) : Prop :=
  ∀ ph, entry = some ph → ph.current ≠ none ∧
    ∃ e, ph.price_changes.head? = some e ∧ isInitialEvent e = true

/-- Python `round(x, 2)` (ties to even), on exact rationals. -/
def round2 (x : ℚ) : ℚ := (roundHalfEven (x * 100) : ℚ) / 100

/-- Result dict of `PriceAnalyzer._analyze_price_trends`
(src/price_analyzer.py lines 112-168).  Keys that are absent from the
insufficient-data dict are `Option`s. -/
structure TrendResult where
  trend : String
  trend_strength : ℚ
  recent_change : ℚ
  analysis : String
  total_change : Option ℚ
  total_change_percent : Option ℚ
  recent_change_percent : Option ℚ
  total_price_changes : Option Nat
deriving DecidableEq

/-- The dict `_analyze_price_trends` returns on fewer than 2 events or a
falsy first/last price (src/price_analyzer.py 115-121 and 130-136). -/
def insufficientTrend : TrendResult :=
  { trend := "stable", trend_strength := 0, recent_change := 0,
    analysis := "insufficient_data", total_change := none,
    total_change_percent := none, recent_change_percent := none,
    total_price_changes := none }

/-- `PriceAnalyzer._analyze_price_trends` (src/price_analyzer.py 112-168).
`event.get("price") or event.get("to", 0)` evaluates to `eventNewPrice`:
an Initial dict has a `price` key and no `to` key (a zero price falls
through to the default 0, which is the same value), a Change dict has a
`to` key and no `price` key. -/
def analyzeTrends (price_changes : List PEvent) : TrendResult :=
  if price_changes.length < 2 then insufficientTrend
  else
    match price_changes.head?, price_changes.getLast? with
    | some first_event, some last_event =>
      let first_price := eventNewPrice first_event
      let last_price := eventNewPrice last_event
      if first_price = 0 ∨ last_price = 0 then insufficientTrend
      else
        let total_change := last_price - first_price
        let total_change_pct :=
          if 0 < first_price then total_change / first_price * 100 else 0
        let rc : ℚ × ℚ :=
          match last_event with
          | .change _ f t cps _ _ => (t - f, cps)
          | .initial _ _ _ _ => (0, 0)
        let trend := if |total_change_pct| < 1 then "stable"
          else if 0 < total_change_pct then "increasing" else "decreasing"
        let ts := min (|total_change_pct| * 10) 100
        { trend := trend, trend_strength := round1 ts,
          recent_change := round2 rc.1, analysis := "available",
          total_change := some (round2 total_change),
          total_change_percent := some (round1 total_change_pct),
          recent_change_percent := some (round1 rc.2),
          total_price_changes := some price_changes.length }
    | _, _ => insufficientTrend

/-- One store's scrape-result dict as consumed by the EAN monitor
(src/ean_price_monitor.py).  `available` is `Option`al because
`data.get("available", True)` defaults a missing key to in-stock. -/
structure StoreData where
  current_price : Option ℚ
  available : Option Bool
  url : Option String
deriving DecidableEq

/-- The `valid_prices` list built by `EANPriceMonitor.find_lowest_price`
(src/ean_price_monitor.py 148-159): entries with a truthy price and truthy
availability, in dict-iteration (insertion) order.  The `if not data:
continue` guard of the code is subsumed: an empty dict yields no
`current_price`, which this filter already rejects. -/
def validPrices (store_results : List (String × StoreData)) :
    List (String × ℚ × String) :=
  store_results.filterMap fun sd =>
    match sd.2.current_price with
    | none => none
    | some p =>
      if p ≠ 0 ∧ sd.2.available.getD true = true then
        some (sd.1, p, sd.2.url.getD "")
      else none

/-- `EANPriceMonitor.find_lowest_price` (src/ean_price_monitor.py 138-165):
`min(valid_prices, key=lambda x: x[1])`, which returns the first element
attaining the minimum price. -/
def findLowestPrice (store_results : List (String × StoreData)) :
    Option (String × ℚ × String) :=
  match validPrices store_results with
  | [] => none
  | v :: vs =>
    some (vs.foldl (fun best x => if x.2.1 < best.2.1 then x else best) v)

/-- Python dict assignment `d[k] = v` on an association list: overwrite in
place when the key is present, else append (dicts keep insertion order). -/
def setAssoc {α : Type} (l : List (String × α)) (k : String) (v : α) :
    List (String × α) :=
  match l with
  | [] => [(k, v)]
  | (k', v') :: t => if k' = k then (k, v) :: t else (k', v') :: setAssoc t k v

/-- Python dict lookup `d.get(k)` on an association list. -/
def lookupAssoc {α : Type} (l : List (String × α)) (k : String) : Option α :=
  match l with
  | [] => none
  | (k', v') :: t => if k' = k then some v' else lookupAssoc t k

/-- Per-store state dict held under `stores` in the EAN history
(src/ean_price_monitor.py 290-295). -/
structure StoreState where
  url : Option String
  current_price : Option ℚ
  available : Bool
  last_updated : Nat
deriving DecidableEq

/-- An entry of the EAN `price_changes` list
(src/ean_price_monitor.py 259-284): `initial` is the dict with
`"type": "initial"`; `change` carries the optional `from`/`to`/`change_pct`
keys as `priceDelta` and the optional `availability_changed`/
`from_available` keys as `availDelta`. -/
inductive EanEvent where
  | initial (date : Nat) (store : String) (price : Option ℚ) (available : Bool)
  | change (date : Nat) (store : String) (available : Bool)
      (priceDelta : Option (ℚ × ℚ × ℚ)) (availDelta : Option Bool)
deriving DecidableEq

/-- The `current_lowest` dict (src/ean_price_monitor.py 305-310). -/
structure CurrentLowest where
  price : ℚ
  store : String
  url : String
  since : Nat
deriving DecidableEq

/-- The EAN-level `all_time_lowest` dict (src/ean_price_monitor.py 315-320). -/
structure EanATL where
  price : ℚ
  store : String
  date : Nat
  url : String
deriving DecidableEq

/-- One EAN's entry in the cross-store price history
(src/ean_price_monitor.py 224-230). -/
structure EanHistory where
  name : String
  stores : List (String × StoreState)
  current_lowest : Option CurrentLowest
  all_time_lowest : Option EanATL
  price_changes : List EanEvent
deriving DecidableEq

/-- Body of the per-store loop of `EANPriceMonitor.update_history`
(src/ean_price_monitor.py 240-295) for a single `(store_name, data)` item:
detect price/availability changes against the stored per-store state,
append at most one event, then overwrite the store's state dict. -/
def updateHistoryStep (today : Nat) (eh : EanHistory) (sd : String × StoreData) :
    EanHistory :=
  let store_name := sd.1
  let data := sd.2
  let new_price := data.current_price
  let new_available := data.available.getD true
  let newState : StoreState :=
    { url := data.url, current_price := new_price,
      available := new_available, last_updated := today }
  match lookupAssoc eh.stores store_name with
  | none =>
    { eh with
        price_changes := eh.price_changes ++
          [EanEvent.initial today store_name new_price new_available],
        stores := setAssoc eh.stores store_name newState }
  | some prev =>
    let price_changed : Bool :=
      match prev.current_price, new_price with
      | some pp, some np => decide (1/100 < |np - pp|)
      | _, _ => false
    let avail_changed : Bool := decide (new_available ≠ prev.available)
    let changes' :=
      if price_changed || avail_changed then
        let priceDelta : Option (ℚ × ℚ × ℚ) :=
          match prev.current_price, new_price with
          | some pp, some np =>
            if 1/100 < |np - pp| then
              some (pp, np, round1 ((np - pp) / pp * 100))
            else none
          | _, _ => none
        let availDelta : Option Bool :=
          if avail_changed then some prev.available else none
        eh.price_changes ++
          [EanEvent.change today store_name new_available priceDelta availDelta]
      else eh.price_changes
    { eh with price_changes := changes',
              stores := setAssoc eh.stores store_name newState }

/-- `EANPriceMonitor.update_history` (src/ean_price_monitor.py 202-320):
initialise the EAN entry if absent, run the per-store loop, then refresh
`current_lowest` (when it moved by more than 0.01) and `all_time_lowest`
(when strictly lower) from the supplied cross-store lowest. -/
def updateHistory (entry : Option EanHistory) (product_name : String)
    (store_results : List (String × StoreData))
    (lowest : Option (String × ℚ × String)) (today : Nat) : EanHistory :=
  let eh0 : EanHistory := entry.getD
    ({ name := product_name, stores := [], current_lowest := none,
       all_time_lowest := none, price_changes := [] })
  let eh1 : EanHistory := { eh0 with name := product_name }
  let eh2 := store_results.foldl (updateHistoryStep today) eh1
  match lowest with
  | none => eh2
  | some (store_name, price, url) =>
    let cl : CurrentLowest :=
      { price := price, store := store_name, url := url, since := today }
    let eh3 :=
      match eh2.current_lowest.map (fun c => c.price) with
      | none => { eh2 with current_lowest := some cl }
      | some pl =>
        if 1/100 < |price - pl| then { eh2 with current_lowest := some cl }
        else eh2
    let atl' : EanATL :=
      { price := price, store := store_name, date := today, url := url }
    match eh3.all_time_lowest with
    | none => { eh3 with all_time_lowest := some atl' }
    | some atl =>
      if price < atl.price then { eh3 with all_time_lowest := some atl' }
      else eh3

/-- One legacy daily-snapshot entry `{current_price, original_price,
discount_percent, scraped_at}` (src/migrate_price_history.py 20-31;
`scraped_at` is never read by the migrator). -/
structure LegacyEntry where
  current_price : Option ℚ
  original_price : Option ℚ
  discount_percent : Option ℚ
deriving DecidableEq

/-- Loop state of the per-product pass of `migrate_price_history`
(src/migrate_price_history.py 70-73): accumulated events, `prev_price`,
`current_price_since`, and the running all-time lowest — the
`{"price": inf, "date": None}` sentinel is the `none` case, matching the
final `all_time_lowest if all_time_lowest["date"] else None`. -/
structure MigState where
  price_changes : List PEvent
  prev_price : Option ℚ
  current_price_since : Option Nat
  all_time_lowest : Option AllTimeLowest
deriving DecidableEq

/-- One iteration of the date loop of `migrate_price_history`
(src/migrate_price_history.py 75-124) on the entry of one date. -/
def migStep (st : MigState) (de : Nat × LegacyEntry) : MigState :=
  match de.2.current_price with
  | none => st
  | some price =>
    let atl' : Option AllTimeLowest :=
      match st.all_time_lowest with
      | none => some ({ price := price, date := de.1,
                        original_price := de.2.original_price })
      | some a =>
        if price < a.price then
          some ({ price := price, date := de.1,
                  original_price := de.2.original_price })
        else some a
    match st.prev_price with
    | none =>
      { price_changes := st.price_changes ++
          [PEvent.initial de.1 price de.2.original_price de.2.discount_percent],
        prev_price := some price, current_price_since := some de.1,
        all_time_lowest := atl' }
    | some prev =>
      if 1/100 < |price - prev| then
        let pct := if prev ≠ 0 then round1 ((price - prev) / prev * 100) else 0
        { price_changes := st.price_changes ++
            [PEvent.change de.1 prev price pct de.2.original_price
              de.2.discount_percent],
          prev_price := some price, current_price_since := some de.1,
          all_time_lowest := atl' }
      else
        { st with prev_price := some price, all_time_lowest := atl' }

/-- The migrated `current` dict (src/migrate_price_history.py 132-137); its
`price` is the chronologically last snapshot's `current_price` and may be
null. -/
structure NewCurrent where
  price : Option ℚ
  original_price : Option ℚ
  discount_pct : Option ℚ
  since : Option Nat
deriving DecidableEq

/-- One product's entry of the migrated file
(src/migrate_price_history.py 127-140). -/
structure NewProduct where
  name : String
  purchase_url : String
  current : NewCurrent
  all_time_lowest : Option AllTimeLowest
  price_changes : List PEvent
deriving DecidableEq

/-- The per-product transform of `migrate_price_history`
(src/migrate_price_history.py 59-140).  `entries` is the product's
`price_history` items in ascending date order (the code's `sorted_dates`
walk); the result is `none` when the product is skipped (empty history or
no derivable events). -/
def migrateProduct (name purchase_url : String)
    (entries : List (Nat × LegacyEntry)) : Option NewProduct :=
  let st := entries.foldl migStep
    ({ price_changes := [], prev_price := none,
       current_price_since := none, all_time_lowest := none })
  if st.price_changes = [] then none
  else
    match entries.getLast? with
    | none => none
    | some last =>
      some ({ name := name, purchase_url := purchase_url,
              current := { price := last.2.current_price,
                           original_price := last.2.original_price,
                           discount_pct := last.2.discount_percent,
                           since := st.current_price_since },
              all_time_lowest := st.all_time_lowest,
              price_changes := st.price_changes })

/-- One product of the legacy file (src/migrate_price_history.py 20-31). -/
structure LegacyProduct where
  name : String
  purchase_url : String
  price_history : List (Nat × LegacyEntry)
deriving DecidableEq

/-- `migrate_price_history` over the whole file
(src/migrate_price_history.py 55-148): products with no derivable events
are dropped from the output. -/
def migrateStore (old : List (String × LegacyProduct)) :
    List (String × NewProduct) :=
  old.foldl (fun acc kp =>
    match migrateProduct kp.2.name kp.2.purchase_url kp.2.price_history with
    | none => acc
    | some np => acc ++ [(kp.1, np)]) []

/-- Contents of a JSON history file: either the legacy daily-snapshot shape
or the migrated event-based shape.  Running `migrate_price_history` on an
already-migrated file derives nothing (no product carries a
`price_history` key, so every product is skipped). -/
inductive FileContent where
  | legacy (store : List (String × LegacyProduct))
  | migrated (store : List (String × NewProduct))
deriving DecidableEq

/-- What `migrate_price_history(file_path)` derives from a file's parsed
contents. -/
def migrateFile : FileContent → List (String × NewProduct)
  | .legacy s => migrateStore s
  | .migrated _ => []

/-- Total number of output events of a migrated store. -/
def storeEventCount (s : List (String × NewProduct)) : Nat :=
  (s.map (fun kp => kp.2.price_changes.length)).sum

/-- A flat filesystem, path to contents, standing for the working
directory that `backup_and_migrate` reads and writes. -/
def FS : Type := List (String × FileContent)

/-- `f"{file_path}.backup.{timestamp}"` (src/migrate_price_history.py 270). -/
def backupName (path : String) (ts : Nat) : String :=
  path ++ ".backup." ++ toString ts

/-- `backup_and_migrate` (src/migrate_price_history.py 263-286): a missing
file fails; otherwise the original is copied to the timestamped backup path
first, migration runs, and only when it produced data is the original
overwritten with the new format (`shutil.copy` and `open(..., "w")` are
the association-list write). -/
def backupAndMigrate (fs : FS) (path : String) (ts : Nat) : Bool × FS :=
  match lookupAssoc fs path with
  | none => (false, fs)
  | some content =>
    let fs1 := setAssoc fs (backupName path ts) content
    let newData := migrateFile content
    if newData = [] then (false, fs1)
    else (true, setAssoc fs1 path (FileContent.migrated newData))

/-- A concrete one-file filesystem for exercising `backupAndMigrate`: a
legacy history with a single priced snapshot. -/
def exLegacyStore : List (String × LegacyProduct) :=
  [("p", { name := "n", purchase_url := "u",
           price_history := [(0, { current_price := some 10,
                                   original_price := none,
                                   discount_percent := none })] })]

/-- The filesystem holding `exLegacyStore` at path "db". -/
def exFS : FS := [("db", FileContent.legacy exLegacyStore)]

lemma updateATL_current (ph : ProductHistory) (cp : ℚ) (today : Nat) (orig : Option ℚ) :
    (updateATL ph cp today orig).current = ph.current := by
  cases h : ph.all_time_lowest <;> simp only [updateATL, h] <;> try rfl
  split <;> rfl

lemma updateATL_changes (ph : ProductHistory) (cp : ℚ) (today : Nat) (orig : Option ℚ) :
    (updateATL ph cp today orig).price_changes = ph.price_changes := by
  cases h : ph.all_time_lowest <;> simp only [updateATL, h] <;> try rfl
  split <;> rfl

lemma headOfConcat {α : Type} (l : List α) (x : α) (h : l ≠ []) :
    (l ++ [x]).head? = l.head? :=
  List.head?_append_of_ne_nil _ h

/-- C1 counterexample: starting from an untracked product, ingesting the
positive observed prices 10.00 then 10.01 leaves `CurrentState.price` at
10.01 while the last (and only) element of `price_changes` is the Initial
event at price 10.00: the claimed invariant I3/P3 fails, because the
NoChange branch of `detect_price_changes` still overwrites
`current["price"]` with the observed price (src/price_monitor.py 222-230). -/
theorem C1_counterexample :
    (ingestPrices [(10, 0), (1001/100, 1)]).bind
        (fun ph => ph.current.map (fun c => c.price)) = some (1001/100) ∧
    (ingestPrices [(10, 0), (1001/100, 1)]).bind
        (fun ph => ph.price_changes.getLast?.map eventNewPrice) = some 10 ∧
    ((1001/100 : ℚ) ≠ 10 ∧ (0 : ℚ) < 10 ∧ (0 : ℚ) < 1001/100) := by
  refine ⟨?_, ?_, by norm_num⟩ <;>
    norm_num [ingestPrices, ingestAll, recordObservation, obsOf, updateATL,
      eventNewPrice, abs_of_nonneg, abs_of_nonpos]

/-- C1 (amended): after ingesting a positive observed price, the product's
`CurrentState.price` equals that observed price, and it equals the `to`
(or `price`, for Initial) of the last element of `price_changes` whenever
this ingestion appended an event, i.e. whenever the product was new or the
price moved by more than 0.01 from the previously recorded price.  (A
NoChange ingestion still overwrites `CurrentState.price` with the observed
price without appending an event, which is what refutes the claim as
stated.) -/
theorem C1_current_price_amended (entry : Option ProductHistory) (p : Obs) (cp : ℚ)
    (today : Nat) (hp : p.current_price = some cp) (hpos : 0 < cp) :
    ∃ ph, (recordObservation entry p today).1 = some ph ∧
      ph.current.map (fun c => c.price) = some cp ∧
      ((entry.bind (fun e => e.current) = none ∨
        (∃ c, entry.bind (fun e => e.current) = some c ∧ 1/100 < |cp - c.price|)) →
        ph.price_changes.getLast?.map eventNewPrice = some cp) := by
  have hne : cp ≠ 0 := ne_of_gt hpos
  cases entry with
  | none =>
    simp [recordObservation, hp, hne, updateATL_current, updateATL_changes, eventNewPrice]
  | some e =>
    cases hc : e.current with
    | none =>
      simp [recordObservation, hp, hne, hc, updateATL_current, updateATL_changes,
        eventNewPrice]
    | some cur =>
      by_cases hlt : 1/100 < |cp - cur.price| <;> rw [one_div] at hlt
      · simp [recordObservation, hp, hne, hc, hlt, updateATL_current, updateATL_changes,
          eventNewPrice, List.getLast?_concat]
      · simp [recordObservation, hp, hne, hc, hlt, updateATL_current, updateATL_changes,
          eventNewPrice]

/-- C1 witness: a fresh product observed at price 44.95 ends with
`CurrentState.price = 44.95`, equal to the price of the appended Initial
event. -/
theorem C1_current_price_amended_witness :
    ∃ ph, (recordObservation none (obsOf (899/20)) 0).1 = some ph ∧
      ph.current.map (fun c => c.price) = some (899/20) ∧
      (((none : Option ProductHistory).bind (fun e => e.current) = none ∨
        (∃ c, (none : Option ProductHistory).bind (fun e => e.current) = some c ∧
          1/100 < |(899/20 : ℚ) - c.price|)) →
        ph.price_changes.getLast?.map eventNewPrice = some (899/20)) :=
  C1_current_price_amended none (obsOf (899/20)) (899/20) 0 (by simp [obsOf]) (by norm_num)

lemma recordObservation_nochange (ph : ProductHistory) (cur : CurrentState) (p : Obs)
    (cp : ℚ) (today : Nat) (hc : ph.current = some cur) (hp : p.current_price = some cp)
    (hne : cp ≠ 0) (hsmall : |cp - cur.price| ≤ 1/100) :
    ∃ ph' cur', (recordObservation (some ph) p today).1 = some ph' ∧
      ph'.price_changes = ph.price_changes ∧ ph'.current = some cur' ∧ cur'.price = cp := by
  have hnlt : ¬ (100 : ℚ)⁻¹ < |cp - cur.price| := by
    rw [← one_div]; exact not_lt.mpr hsmall
  simp [recordObservation, hp, hne, hc, hnlt, updateATL_current, updateATL_changes]

lemma recordObservation_changed (ph : ProductHistory) (cur : CurrentState) (p : Obs)
    (cp : ℚ) (today : Nat) (hc : ph.current = some cur) (hp : p.current_price = some cp)
    (hne : cp ≠ 0) (hbig : 1/100 < |cp - cur.price|) :
    ∃ ph', (recordObservation (some ph) p today).1 = some ph' ∧
      ph'.price_changes = ph.price_changes ++
        [PEvent.change today cur.price cp (round1 ((cp - cur.price) / cur.price * 100))
          p.original_price p.discount_percent] ∧
      ph'.current = some ({ price := cp, original_price := p.original_price,
                            discount_pct := p.discount_percent, since := today }) := by
  rw [one_div] at hbig
  simp [recordObservation, hp, hne, hc, hbig, updateATL_current, updateATL_changes]

lemma recordObservation_new (p : Obs) (cp : ℚ) (today : Nat)
    (hp : p.current_price = some cp) (hne : cp ≠ 0) :
    (recordObservation none p today).1 =
      some ({ name := p.name, purchase_url := p.url,
              current := some ({ price := cp, original_price := p.original_price,
                                 discount_pct := p.discount_percent, since := today }),
              all_time_lowest := some ({ price := cp, date := today,
                                         original_price := p.original_price }),
              price_changes :=
                [PEvent.initial today cp p.original_price p.discount_percent] }) := by
  simp [recordObservation, hp, hne, updateATL]

/-- Folding a run of observations whose prices each stay within 0.01 of the
previously recorded current price never touches `price_changes`. -/
lemma ingest_nochange_chain (l : List (ℚ × Nat)) :
    ∀ (ph : ProductHistory) (cur : CurrentState) (d0 : Nat), ph.current = some cur →
      (∀ x ∈ l, 0 < x.1) →
      List.Chain (fun a b => |b.1 - a.1| ≤ 1/100) (cur.price, d0) l →
      ∃ ph', ingestAll (some ph) (l.map fun qd => (obsOf qd.1, qd.2)) = some ph' ∧
        ph'.price_changes = ph.price_changes := by
  induction l with
  | nil => exact fun ph cur d0 _ _ _ => ⟨ph, rfl, rfl⟩
  | cons x t ih =>
    intro ph cur d0 hc hpos hchain
    rcases List.chain_cons.mp hchain with ⟨hx, htail⟩
    have hxne : x.1 ≠ 0 := ne_of_gt (hpos x (List.mem_cons_self _ _))
    obtain ⟨ph', cur', hres, hch, hcur, hprice⟩ :=
      recordObservation_nochange ph cur (obsOf x.1) x.1 x.2 hc (by simp [obsOf]) hxne hx
    have hstep : ingestAll (some ph) ((x :: t).map fun qd => (obsOf qd.1, qd.2)) =
        ingestAll ((recordObservation (some ph) (obsOf x.1) x.2).1)
          (t.map fun qd => (obsOf qd.1, qd.2)) := rfl
    rw [hstep, hres]
    have hchain' : List.Chain (fun a b => |b.1 - a.1| ≤ 1/100) (cur'.price, x.2) t := by
      have hxx : (cur'.price, x.2) = x := by rw [hprice]
      rw [hxx]; exact htail
    obtain ⟨ph'', hres'', hch''⟩ := ih ph' cur' x.2 hcur
      (fun y hy => hpos y (List.mem_cons_of_mem _ hy)) hchain'
    exact ⟨ph'', hres'', hch''.trans hch⟩

/-- C2 (confirmed): for an already-tracked product, ingesting a positive
observed price appends a Change event exactly when the observed price
differs from the previously recorded `CurrentState.price` by more than
0.01 (src/price_monitor.py 168-199); and for any observation sequence whose
consecutive prices stay within 0.01 of each other, starting untracked, the
history never acquires any event beyond the single Initial event. -/
theorem C2_change_event_iff :
    (∀ (ph₀ : ProductHistory) (cur : CurrentState) (p : Obs) (cp : ℚ) (today : Nat),
      ph₀.current = some cur → p.current_price = some cp → 0 < cp →
      ∃ ph, (recordObservation (some ph₀) p today).1 = some ph ∧
        (1/100 < |cp - cur.price| →
          ph.price_changes = ph₀.price_changes ++
            [PEvent.change today cur.price cp
              (round1 ((cp - cur.price) / cur.price * 100))
              p.original_price p.discount_percent]) ∧
        (|cp - cur.price| ≤ 1/100 → ph.price_changes = ph₀.price_changes)) ∧
    (∀ (q : ℚ) (d : Nat) (l : List (ℚ × Nat)),
      (∀ x ∈ (q, d) :: l, 0 < x.1) →
      List.Chain (fun a b => |b.1 - a.1| ≤ 1/100) (q, d) l →
      ∃ ph, ingestPrices ((q, d) :: l) = some ph ∧
        ph.price_changes = [PEvent.initial d q none none]) := by
  constructor
  · intro ph₀ cur p cp today hc hp hpos
    by_cases hlt : 1/100 < |cp - cur.price|
    · obtain ⟨ph', hres, hch, _⟩ :=
        recordObservation_changed ph₀ cur p cp today hc hp (ne_of_gt hpos) hlt
      exact ⟨ph', hres, fun _ => hch, fun hle => absurd hlt (not_lt.mpr hle)⟩
    · obtain ⟨ph', _, hres, hch, _⟩ :=
        recordObservation_nochange ph₀ cur p cp today hc hp (ne_of_gt hpos)
          (not_lt.mp hlt)
      exact ⟨ph', hres, fun h => absurd h hlt, fun _ => hch⟩
  · intro q d l hpos hchain
    have hqne : q ≠ 0 := ne_of_gt (hpos (q, d) (List.mem_cons_self _ _))
    have h1 : ingestPrices ((q, d) :: l) =
        ingestAll ((recordObservation none (obsOf q) d).1)
          (l.map fun qd => (obsOf qd.1, qd.2)) := rfl
    rw [h1, recordObservation_new (obsOf q) q d (by simp [obsOf]) hqne]
    obtain ⟨ph', hres, hch⟩ := ingest_nochange_chain l
      ({ name := (obsOf q).name, purchase_url := (obsOf q).url,
         current := some ({ price := q, original_price := (obsOf q).original_price,
                            discount_pct := (obsOf q).discount_percent, since := d }),
         all_time_lowest := some ({ price := q, date := d,
                                    original_price := (obsOf q).original_price }),
         price_changes := [PEvent.initial d q (obsOf q).original_price
           (obsOf q).discount_percent] })
      ({ price := q, original_price := (obsOf q).original_price,
         discount_pct := (obsOf q).discount_percent, since := d }) d rfl
      (fun y hy => hpos y (List.mem_cons_of_mem _ hy)) hchain
    exact ⟨ph', hres, by rw [hch]; simp [obsOf]⟩

/-- C2 witness: a tracked product at 44.95 observed at 35.96 (difference
well above 0.01) appends exactly one Change event; and the two-observation
run 44.95, 44.955 (difference 0.005) keeps the history at the single
Initial event. -/
theorem C2_change_event_iff_witness :
    (∃ ph, (recordObservation
        (some ({ name := "", purchase_url := "",
                 current := some ({ price := 899/20, original_price := none,
                                    discount_pct := none, since := 0 }),
                 all_time_lowest := none, price_changes := [] }))
        (obsOf (899/25)) 1).1 = some ph ∧
      (1/100 < |(899/25 : ℚ) - (899/20 : ℚ)| →
        ph.price_changes = [] ++
          [PEvent.change 1 (899/20) (899/25)
            (round1 (((899/25 : ℚ) - 899/20) / (899/20) * 100)) none none]) ∧
      (|(899/25 : ℚ) - (899/20 : ℚ)| ≤ 1/100 → ph.price_changes = [])) ∧
    (∃ ph, ingestPrices [(899/20, 0), (8991/200, 1)] = some ph ∧
      ph.price_changes = [PEvent.initial 0 (899/20) none none]) := by
  constructor
  · exact (C2_change_event_iff.1 _
      { price := 899/20, original_price := none, discount_pct := none, since := 0 }
      (obsOf (899/25)) (899/25) 1 rfl (by simp [obsOf]) (by norm_num))
  · exact (C2_change_event_iff.2 (899/20) 0 [(8991/200, 1)]
      (by intro x hx; simp at hx; rcases hx with h | h <;> simp [h])
      (by
        refine List.chain_cons.mpr ⟨?_, List.Chain.nil⟩
        rw [show (8991/200 : ℚ) - 899/20 = 1/200 by norm_num]
        rw [abs_of_nonneg (by norm_num)]; norm_num))

/-- C3 counterexample: a history reachable from the empty store by two
ingestions (price 10 on day 0, price 12 on day 1000) followed by
`cleanup_old_history` with a retention cutoff between the two dates no
longer starts with an Initial event — the cleanup filter drops the Initial
event and keeps the later Change event (src/price_monitor.py 250-261). -/
theorem C3_counterexample :
    (ingestPrices [(10, 0), (12, 1000)]).map
      (fun ph => (cleanupProduct 500 ph).price_changes.head?.map isInitialEvent) =
      some (some false) := by
  norm_num [ingestPrices, ingestAll, recordObservation, obsOf, updateATL,
    cleanupProduct, eventDate, round1, roundHalfEven, ratFloor, isInitialEvent,
    List.filter, abs_of_nonneg, abs_of_nonpos]

lemma headInitialInv_step (entry : Option ProductHistory) (p : Obs) (today : Nat)
    (h : headInitialInv entry) :
    headInitialInv ((recordObservation entry p today).1) := by
  cases hp : p.current_price with
  | none => simpa [recordObservation, hp] using h
  | some cp =>
    by_cases hcp : cp = 0
    · simpa [recordObservation, hp, hcp] using h
    · cases entry with
      | none =>
        rw [recordObservation_new p cp today hp hcp]
        intro ph hph
        rw [Option.some_inj] at hph
        subst hph
        exact ⟨by simp, PEvent.initial today cp p.original_price p.discount_percent,
          by simp, rfl⟩
      | some e =>
        obtain ⟨hcur, e0, he0, hinit⟩ := h e rfl
        obtain ⟨cur, hc⟩ := Option.ne_none_iff_exists'.mp hcur
        have hne : e.price_changes ≠ [] := by
          intro hnil; rw [hnil] at he0; simp at he0
        by_cases hlt : 1/100 < |cp - cur.price|
        · obtain ⟨ph', hres, hch, hcur'⟩ :=
            recordObservation_changed e cur p cp today hc hp hcp hlt
          rw [hres]
          intro ph hph
          rw [Option.some_inj] at hph
          subst hph
          refine ⟨by simp [hcur'], e0, ?_, hinit⟩
          rw [hch, headOfConcat _ _ hne]
          exact he0
        · obtain ⟨ph', cur', hres, hch, hcur', _⟩ :=
            recordObservation_nochange e cur p cp today hc hp hcp (not_lt.mp hlt)
          rw [hres]
          intro ph hph
          rw [Option.some_inj] at hph
          subst hph
          exact ⟨by simp [hcur'], e0, by rw [hch]; exact he0, hinit⟩

lemma headInitialInv_fold (l : List (Obs × Nat)) :
    ∀ entry, headInitialInv entry → headInitialInv (ingestAll entry l) := by
  induction l with
  | nil => exact fun entry h => h
  | cons x t ih =>
    intro entry h
    exact ih _ (headInitialInv_step entry x.1 x.2 h)

/-- C3 (amended): for every product history reachable from the empty store
by ingestions alone (no cleanup), the first element of `price_changes` is
an Initial event.  `cleanup_old_history` does not preserve this: it can
drop the Initial event, as the counterexample shows, so the claim fails
once cleanup with an arbitrary retention is allowed. -/
theorem C3_first_event_initial_amended (l : List (Obs × Nat)) (ph : ProductHistory)
    (h : ingestAll none l = some ph) :
    ∃ e, ph.price_changes.head? = some e ∧ isInitialEvent e = true := by
  have hinv : headInitialInv (ingestAll none l) :=
    headInitialInv_fold l none (by intro ph hph; cases hph)
  exact (hinv ph h).2

/-- C3 witness: one ingestion of price 44.95 from the empty store yields a
history whose first event is Initial. -/
theorem C3_first_event_initial_amended_witness :
    ∃ ph, ingestAll none [(obsOf (899/20), 0)] = some ph ∧
      ∃ e, ph.price_changes.head? = some e ∧ isInitialEvent e = true := by
  have hres : ingestAll none [(obsOf (899/20), 0)] = some
      ({ name := "", purchase_url := "",
         current := some ({ price := 899/20, original_price := none,
                            discount_pct := none, since := 0 }),
         all_time_lowest := some ({ price := 899/20, date := 0,
                                    original_price := none }),
         price_changes := [PEvent.initial 0 (899/20) none none] }) := by
    simp [ingestAll, recordObservation, obsOf, updateATL]
  exact ⟨_, hres, C3_first_event_initial_amended _ _ hres⟩

lemma mem_of_getLastSome {α : Type} {l : List α} {a : α} (h : l.getLast? = some a) :
    a ∈ l := by
  rcases List.mem_getLast?_eq_getLast (Option.mem_def.mpr h) with ⟨hne, rfl⟩
  exact List.getLast_mem hne

/-- C4 (confirmed): on a product with a non-empty `price_changes`,
`cleanup_old_history` keeps the list non-empty (even when every event is
older than the cutoff), removes only events dated before the cutoff
`now - retention_days`, adds nothing that was not already present, leaves
`current` and `all_time_lowest` untouched, and when every event predates
the cutoff the surviving list is exactly the single most recent event
`price_changes[-1]` (src/price_monitor.py 242-267). -/
theorem C4_cleanup_frame (cutoff : Nat) (ph : ProductHistory)
    (hne : ph.price_changes ≠ []) :
    (cleanupProduct cutoff ph).price_changes ≠ [] ∧
    (∀ e ∈ (cleanupProduct cutoff ph).price_changes, e ∈ ph.price_changes) ∧
    (∀ e ∈ ph.price_changes, cutoff ≤ eventDate e →
      e ∈ (cleanupProduct cutoff ph).price_changes) ∧
    (cleanupProduct cutoff ph).current = ph.current ∧
    (cleanupProduct cutoff ph).all_time_lowest = ph.all_time_lowest ∧
    ((∀ e ∈ ph.price_changes, eventDate e < cutoff) →
      ∃ last, ph.price_changes.getLast? = some last ∧
        (cleanupProduct cutoff ph).price_changes = [last]) := by
  by_cases hlen : 1 < ph.price_changes.length
  · by_cases hf : ph.price_changes.filter (fun e => cutoff ≤ eventDate e) = []
    · obtain ⟨x, hx⟩ : ∃ x, ph.price_changes.getLast? = some x := by
        cases hl : ph.price_changes.getLast? with
        | some a => exact ⟨a, rfl⟩
        | none => exact absurd (List.getLast?_eq_none_iff.mp hl) hne
      have hres : (cleanupProduct cutoff ph).price_changes = [x] := by
        simp only [cleanupProduct, if_pos hlen, hf, hx]
        simp
      refine ⟨by simp [hres], ?_, ?_, ?_, ?_, ?_⟩
      · intro e he
        rw [hres] at he
        simp at he
        exact he ▸ mem_of_getLastSome hx
      · intro e he hcut
        have : e ∈ ph.price_changes.filter (fun e => cutoff ≤ eventDate e) :=
          List.mem_filter.mpr ⟨he, by simpa using hcut⟩
        rw [hf] at this
        simp at this
      · simp [cleanupProduct, if_pos hlen]
      · simp [cleanupProduct, if_pos hlen]
      · exact fun _ => ⟨x, hx, hres⟩
    · have hres : (cleanupProduct cutoff ph).price_changes =
          ph.price_changes.filter (fun e => cutoff ≤ eventDate e) := by
        simp only [cleanupProduct, if_pos hlen, if_neg hf]
      refine ⟨by rw [hres]; exact hf, ?_, ?_, ?_, ?_, ?_⟩
      · intro e he
        rw [hres] at he
        exact List.mem_of_mem_filter he
      · intro e he hcut
        rw [hres]
        exact List.mem_filter.mpr ⟨he, by simpa using hcut⟩
      · simp [cleanupProduct, if_pos hlen]
      · simp [cleanupProduct, if_pos hlen]
      · intro hstale
        obtain ⟨e, he⟩ := List.exists_mem_of_ne_nil _ hf
        have hm := List.mem_filter.mp he
        exact absurd (hstale e hm.1) (not_lt.mpr (by simpa using hm.2))
  · have hres : cleanupProduct cutoff ph = ph := by
      simp [cleanupProduct, hlen]
    rw [hres]
    refine ⟨hne, fun e he => he, fun e he _ => he, rfl, rfl, ?_⟩
    intro _
    cases hpc : ph.price_changes with
    | nil => exact absurd hpc hne
    | cons x t =>
      cases t with
      | nil => exact ⟨x, rfl, rfl⟩
      | cons y t2 =>
        exfalso
        apply hlen
        rw [hpc, List.length_cons, List.length_cons]
        omega

/-- C4 witness: a concrete one-event history passed through cleanup with
cutoff 500; its single event is stale, and the survivor is exactly the
most recent event. -/
theorem C4_cleanup_frame_witness :
    ∃ ph : ProductHistory, ph.price_changes ≠ [] ∧
      ((cleanupProduct 500 ph).price_changes ≠ [] ∧
       (∀ e ∈ (cleanupProduct 500 ph).price_changes, e ∈ ph.price_changes) ∧
       (∀ e ∈ ph.price_changes, 500 ≤ eventDate e →
         e ∈ (cleanupProduct 500 ph).price_changes) ∧
       (cleanupProduct 500 ph).current = ph.current ∧
       (cleanupProduct 500 ph).all_time_lowest = ph.all_time_lowest ∧
       ((∀ e ∈ ph.price_changes, eventDate e < 500) →
         ∃ last, ph.price_changes.getLast? = some last ∧
           (cleanupProduct 500 ph).price_changes = [last])) := by
  refine ⟨({ name := "", purchase_url := "", current := none, all_time_lowest := none,
             price_changes := [PEvent.initial 0 10 none none] }), by simp, ?_⟩
  exact C4_cleanup_frame 500 _ (by simp)

/-- C9 counterexample: for the two-event history Initial at 3.00 then
Change to 3.05, the exact total change percent is 5/3, so the claimed
strength `min(|pct|·10, 100)` is 50/3, yet `_analyze_price_trends` returns
`round(50/3, 1) = 16.7` (src/price_analyzer.py 157-161): the returned
`trend_strength` is the rounded value, not `min(|pct|·10, 100)` itself. -/
theorem C9_counterexample :
    (analyzeTrends [PEvent.initial 0 3 none none,
        PEvent.change 1 3 (61/20) (17/10) none none]).trend_strength = 167/10 ∧
    min (|((61/20 : ℚ) - 3) / 3 * 100| * 10) 100 = 50/3 ∧
    (167/10 : ℚ) ≠ 50/3 := by
  refine ⟨?_, ?_, by norm_num⟩
  · norm_num [analyzeTrends, eventNewPrice, insufficientTrend, round1, round2,
      roundHalfEven, ratFloor, abs_of_nonneg, abs_of_nonpos, min_def,
      show Int.fdiv 500 3 = 166 from rfl]
  · rw [show ((61/20 : ℚ) - 3) / 3 * 100 = 5/3 by norm_num,
      abs_of_nonneg (by norm_num : (0:ℚ) ≤ 5/3)]
    norm_num

/-- C9 (amended): for a history of at least 2 events whose first price is
positive and whose last price is non-zero, `_analyze_price_trends` reports
direction `stable` exactly when the absolute total change percent (last
versus first) is below 1, and `trend_strength` equals
`min(|total_change_pct|·10, 100)` rounded to one decimal (Python `round`);
for fewer than 2 events it returns the `stable`/`insufficient_data` dict. -/
theorem C9_trend_amended (l : List PEvent) (e₁ e₂ : PEvent)
    (h1 : l.head? = some e₁) (h2 : l.getLast? = some e₂)
    (hlen : 2 ≤ l.length) (hf : 0 < eventNewPrice e₁)
    (hl : eventNewPrice e₂ ≠ 0) :
    ((analyzeTrends l).trend = "stable" ↔
      |(eventNewPrice e₂ - eventNewPrice e₁) / eventNewPrice e₁ * 100| < 1) ∧
    (analyzeTrends l).trend_strength =
      round1 (min (|(eventNewPrice e₂ - eventNewPrice e₁) / eventNewPrice e₁ * 100| * 10)
        100) ∧
    (analyzeTrends l).analysis = "available" ∧
    (∀ l' : List PEvent, l'.length < 2 → analyzeTrends l' = insufficientTrend) ∧
    insufficientTrend.trend = "stable" ∧
    insufficientTrend.analysis = "insufficient_data" := by
  have hres : analyzeTrends l =
      (let total_change_pct :=
        (eventNewPrice e₂ - eventNewPrice e₁) / eventNewPrice e₁ * 100
      let rc : ℚ × ℚ :=
        match e₂ with
        | .change _ f t cps _ _ => (t - f, cps)
        | .initial _ _ _ _ => (0, 0)
      let trend := if |total_change_pct| < 1 then "stable"
        else if 0 < total_change_pct then "increasing" else "decreasing"
      ({ trend := trend,
         trend_strength := round1 (min (|total_change_pct| * 10) 100),
         recent_change := round2 rc.1, analysis := "available",
         total_change := some (round2 (eventNewPrice e₂ - eventNewPrice e₁)),
         total_change_percent := some (round1 total_change_pct),
         recent_change_percent := some (round1 rc.2),
         total_price_changes := some l.length } : TrendResult)) := by
    rw [analyzeTrends, if_neg (not_lt.mpr hlen)]
    simp only [h1, h2]
    rw [if_neg (not_or_intro hf.ne' hl)]
    simp only [if_pos hf]
    cases e₂ <;> rfl
  constructor
  · rw [hres]
    by_cases habs :
        |(eventNewPrice e₂ - eventNewPrice e₁) / eventNewPrice e₁ * 100| < 1
    · simpa [habs] using habs
    · simp only [if_neg habs]
      refine ⟨fun hs => ?_, fun hc => absurd hc habs⟩
      by_cases hpos : 0 < (eventNewPrice e₂ - eventNewPrice e₁) / eventNewPrice e₁ * 100
      · rw [if_pos hpos] at hs; exact absurd hs (by decide)
      · rw [if_neg hpos] at hs; exact absurd hs (by decide)
  refine ⟨by rw [hres], by rw [hres], ?_, rfl, rfl⟩
  intro l' hl'
  rw [analyzeTrends, if_pos hl']

/-- C9 witness: Initial at 40.00 then Change to 30.00: total change percent
is -25, the direction is not stable, and the strength is
round1(min(250, 100)) = 100. -/
theorem C9_trend_amended_witness :
    ((analyzeTrends [PEvent.initial 0 40 none none,
        PEvent.change 1 40 30 (-25) none none]).trend = "stable" ↔
      |(eventNewPrice (PEvent.change 1 40 30 (-25) none none) -
          eventNewPrice (PEvent.initial 0 40 none none)) /
        eventNewPrice (PEvent.initial 0 40 none none) * 100| < 1) ∧
    (analyzeTrends [PEvent.initial 0 40 none none,
        PEvent.change 1 40 30 (-25) none none]).trend_strength =
      round1 (min (|(eventNewPrice (PEvent.change 1 40 30 (-25) none none) -
          eventNewPrice (PEvent.initial 0 40 none none)) /
        eventNewPrice (PEvent.initial 0 40 none none) * 100| * 10) 100) ∧
    (analyzeTrends [PEvent.initial 0 40 none none,
        PEvent.change 1 40 30 (-25) none none]).analysis = "available" ∧
    (∀ l' : List PEvent, l'.length < 2 → analyzeTrends l' = insufficientTrend) ∧
    insufficientTrend.trend = "stable" ∧
    insufficientTrend.analysis = "insufficient_data" :=
  C9_trend_amended [PEvent.initial 0 40 none none,
      PEvent.change 1 40 30 (-25) none none]
    (PEvent.initial 0 40 none none) (PEvent.change 1 40 30 (-25) none none)
    rfl rfl (by norm_num) (by norm_num [eventNewPrice]) (by norm_num [eventNewPrice])

lemma foldlMin_mem (vs : List (String × ℚ × String)) :
    ∀ v, vs.foldl (fun best x => if x.2.1 < best.2.1 then x else best) v ∈ v :: vs := by
  induction vs with
  | nil => intro v; simp
  | cons x t ih =>
    intro v
    rw [List.foldl_cons]
    by_cases hx : x.2.1 < v.2.1
    · rw [if_pos hx]
      rcases List.mem_cons.mp (ih x) with h1 | h2
      · simp [h1]
      · exact List.mem_cons_of_mem _ (List.mem_cons_of_mem _ h2)
    · rw [if_neg hx]
      rcases List.mem_cons.mp (ih v) with h1 | h2
      · simp [h1]
      · exact List.mem_cons_of_mem _ (List.mem_cons_of_mem _ h2)

lemma foldlMin_le (vs : List (String × ℚ × String)) :
    ∀ v, (vs.foldl (fun best x => if x.2.1 < best.2.1 then x else best) v).2.1 ≤ v.2.1 ∧
      ∀ x ∈ vs,
        (vs.foldl (fun best x => if x.2.1 < best.2.1 then x else best) v).2.1 ≤ x.2.1 := by
  induction vs with
  | nil => intro v; exact ⟨le_refl _, by simp⟩
  | cons x t ih =>
    intro v
    rw [List.foldl_cons]
    obtain ⟨h1, h2⟩ := ih (if x.2.1 < v.2.1 then x else v)
    constructor
    · refine le_trans h1 ?_
      split
      · exact le_of_lt (by assumption)
      · exact le_refl _
    · intro y hy
      rcases List.mem_cons.mp hy with rfl | hmem
      · refine le_trans h1 ?_
        split
        · exact le_refl _
        · exact not_lt.mp (by assumption)
      · exact h2 y hmem

/-- C6 (confirmed): `find_lowest_price` returns `None` exactly when no store
entry has a truthy price together with truthy availability; and any
returned `(store, price, url)` is one of those in-stock entries with a
price no greater than every in-stock price — in particular an out-of-stock
store is never returned, however low its price
(src/ean_price_monitor.py 138-165). -/
theorem C6_find_lowest (l : List (String × StoreData)) :
    (findLowestPrice l = none ↔ validPrices l = []) ∧
    (∀ s p u, findLowestPrice l = some (s, p, u) →
      (s, p, u) ∈ validPrices l ∧
      (∀ v ∈ validPrices l, p ≤ v.2.1) ∧
      ∃ d : StoreData, (s, d) ∈ l ∧ d.current_price = some p ∧ p ≠ 0 ∧
        d.available.getD true = true ∧ u = d.url.getD "") := by
  constructor
  · cases hv : validPrices l with
    | nil => simp [findLowestPrice, hv]
    | cons v vs => simp [findLowestPrice, hv]
  · intro s p u hres
    cases hv : validPrices l with
    | nil => simp [findLowestPrice, hv] at hres
    | cons v vs =>
      simp only [findLowestPrice, hv, Option.some_inj] at hres
      have hmem : (s, p, u) ∈ v :: vs := hres ▸ foldlMin_mem vs v
      obtain ⟨h1, h2⟩ := foldlMin_le vs v
      rw [hres] at h1 h2
      have hmin : ∀ y ∈ v :: vs, p ≤ y.2.1 := by
        intro y hy
        rcases List.mem_cons.mp hy with rfl | hmem2
        · exact h1
        · exact h2 y hmem2
      refine ⟨hmem, hmin, ?_⟩
      have hmemV : (s, p, u) ∈ validPrices l := by rw [hv]; exact hmem
      obtain ⟨a, ha, hmap⟩ := List.mem_filterMap.mp hmemV
      cases hp : a.2.current_price with
      | none => simp [hp] at hmap
      | some q =>
        simp only [hp] at hmap
        by_cases hcond : q ≠ 0 ∧ a.2.available.getD true = true
        · rw [if_pos hcond, Option.some_inj] at hmap
          injection hmap with hs h23
          injection h23 with hpq hu
          refine ⟨a.2, ?_, ?_, ?_, ?_, hu.symm⟩
          · rw [← hs]; exact (Prod.mk.eta) ▸ ha
          · rw [hp, hpq]
          · rw [← hpq]; exact hcond.1
          · exact hcond.2
        · rw [if_neg hcond] at hmap; simp at hmap

/-- C6 witness: the spec's multi-store scenario — store A in stock at
28.40, store B out of stock at 25.00 — returns A at 28.40, never B. -/
theorem C6_find_lowest_witness :
    findLowestPrice
        [("A", { current_price := some (142/5), available := some true,
                 url := some "uA" }),
         ("B", { current_price := some 25, available := some false,
                 url := some "uB" })] = some ("A", 142/5, "uA") ∧
    (("A", (142/5 : ℚ), "uA") ∈ validPrices
        [("A", { current_price := some (142/5), available := some true,
                 url := some "uA" }),
         ("B", { current_price := some 25, available := some false,
                 url := some "uB" })] ∧
      (∀ v ∈ validPrices
          [("A", { current_price := some (142/5), available := some true,
                   url := some "uA" }),
           ("B", { current_price := some 25, available := some false,
                   url := some "uB" })], (142/5 : ℚ) ≤ v.2.1) ∧
      ∃ d : StoreData,
        ("A", d) ∈ [("A", { current_price := some (142/5), available := some true,
                            url := some "uA" }),
                    ("B", { current_price := some 25, available := some false,
                            url := some "uB" })] ∧
        d.current_price = some (142/5) ∧ (142/5 : ℚ) ≠ 0 ∧
        d.available.getD true = true ∧ "uA" = d.url.getD "") := by
  have hres : findLowestPrice
      [("A", { current_price := some (142/5), available := some true,
               url := some "uA" }),
       ("B", { current_price := some 25, available := some false,
               url := some "uB" })] = some ("A", 142/5, "uA") := by
    norm_num [findLowestPrice, validPrices, List.filterMap]
  exact ⟨hres, (C6_find_lowest _).2 "A" (142/5) "uA" hres⟩

lemma lookup_setAssoc_self {α : Type} (l : List (String × α)) (k : String) (v : α) :
    lookupAssoc (setAssoc l k v) k = some v := by
  induction l with
  | nil => simp [setAssoc, lookupAssoc]
  | cons x t ih =>
    by_cases hx : x.1 = k
    · simp [setAssoc, lookupAssoc, hx]
    · simp [setAssoc, lookupAssoc, hx, ih]

/-- C10 (confirmed): a store observation carrying a price but no
`available` key is treated as in stock: `find_lowest_price` defaults
availability to `True` (src/ean_price_monitor.py 155), keeps the entry
among the valid prices and can return it (it does return it when it is the
only candidate), and `update_history` records the store state with
`available = True` (src/ean_price_monitor.py 242, 290-295). -/
theorem C10_default_available :
    (∀ (l : List (String × StoreData)) (s : String) (d : StoreData) (p : ℚ),
      (s, d) ∈ l → d.current_price = some p → p ≠ 0 → d.available = none →
      (s, p, d.url.getD "") ∈ validPrices l) ∧
    (∀ (s : String) (d : StoreData) (p : ℚ),
      d.current_price = some p → p ≠ 0 → d.available = none →
      findLowestPrice [(s, d)] = some (s, p, d.url.getD "")) ∧
    (∀ (eh : EanHistory) (s : String) (d : StoreData) (today : Nat),
      d.available = none →
      lookupAssoc (updateHistoryStep today eh (s, d)).stores s =
        some ({ url := d.url, current_price := d.current_price,
                available := true, last_updated := today })) := by
  refine ⟨?_, ?_, ?_⟩
  · intro l s d p hmem hp hne hav
    exact List.mem_filterMap.mpr ⟨(s, d), hmem, by simp [hp, hav, hne]⟩
  · intro s d p hp hne hav
    have hv : validPrices [(s, d)] = [(s, p, d.url.getD "")] := by
      simp [validPrices, hp, hav, hne]
    simp [findLowestPrice, hv]
  · intro eh s d today hav
    cases hprev : lookupAssoc eh.stores s <;>
      simp [updateHistoryStep, hprev, hav, lookup_setAssoc_self]

/-- C10 witness: a single store "A" at 28.40 with no `available` key is
returned by `find_lowest_price`, and its recorded state is in stock. -/
theorem C10_default_available_witness :
    (("A", (142/5 : ℚ), "uA") ∈ validPrices
        [("A", { current_price := some (142/5), available := none,
                 url := some "uA" })]) ∧
    findLowestPrice
        [("A", { current_price := some (142/5), available := none,
                 url := some "uA" })] = some ("A", 142/5, "uA") ∧
    lookupAssoc (updateHistoryStep 7
        ({ name := "x", stores := [], current_lowest := none,
           all_time_lowest := none, price_changes := [] })
        ("A", { current_price := some (142/5), available := none,
                url := some "uA" })).stores "A" =
      some ({ url := some "uA", current_price := some (142/5),
              available := true, last_updated := 7 }) := by
  refine ⟨?_, ?_, ?_⟩
  · exact C10_default_available.1 _ "A" _ (142/5) (List.mem_cons_self _ _) rfl
      (by norm_num) rfl
  · exact C10_default_available.2.1 "A" _ (142/5) rfl (by norm_num) rfl
  · exact C10_default_available.2.2 _ "A" _ 7 rfl

/-- C7 counterexample: the single-store monitor skips only falsy prices
(`if not current_price`, src/price_monitor.py 125): a present but negative
price -1 for a product tracked at 10 is not skipped — it appends a Change
event, although the claim says every non-positive price is a no-op. -/
theorem C7_counterexample :
    (ingestPrices [(10, 0)]).map (fun ph => ph.price_changes.length) = some 1 ∧
    ((recordObservation (ingestPrices [(10, 0)]) (obsOf (-1)) 1).1.map
      (fun ph => ph.price_changes.length)) = some 2 ∧
    ¬ (0 : ℚ) < -1 := by
  refine ⟨?_, ?_, by norm_num⟩ <;>
    norm_num [ingestPrices, ingestAll, recordObservation, obsOf, updateATL,
      round1, roundHalfEven, ratFloor, abs_of_nonneg, abs_of_nonpos]

/-- C7 (amended): in the single-store variant an observation whose price is
missing or zero (Python-falsy) is a strict no-op — no event, no state
change, no notification; negative prices are not filtered out.  In the
multi-store variant a missing price for an already-tracked store with
unchanged availability appends no event, but the per-store state is still
overwritten (price becomes null, `last_updated` refreshed); and a
first-seen store appends an Initial event even with a missing price. -/
theorem C7_missing_price_amended :
    (∀ (entry : Option ProductHistory) (p : Obs) (today : Nat),
      p.current_price = none ∨ p.current_price = some 0 →
      recordObservation entry p today = (entry, false)) ∧
    (∀ (eh : EanHistory) (s : String) (d : StoreData) (st : StoreState) (today : Nat),
      lookupAssoc eh.stores s = some st → d.current_price = none →
      d.available.getD true = st.available →
      (updateHistoryStep today eh (s, d)).price_changes = eh.price_changes ∧
      lookupAssoc (updateHistoryStep today eh (s, d)).stores s =
        some ({ url := d.url, current_price := none, available := st.available,
                last_updated := today })) ∧
    (∀ (eh : EanHistory) (s : String) (d : StoreData) (today : Nat),
      lookupAssoc eh.stores s = none →
      (updateHistoryStep today eh (s, d)).price_changes = eh.price_changes ++
        [EanEvent.initial today s d.current_price (d.available.getD true)]) := by
  refine ⟨?_, ?_, ?_⟩
  · intro entry p today h
    rcases h with h | h <;> simp [recordObservation, h]
  · intro eh s d st today hlook hp hav
    constructor
    · simp [updateHistoryStep, hlook, hp, hav]
    · simp only [updateHistoryStep, hlook]
      rw [lookup_setAssoc_self]
      rw [hp, hav]
  · intro eh s d today hlook
    simp [updateHistoryStep, hlook]

/-- C7 witness: concrete no-op for a zero price; concrete missing-price
update for a tracked store "A" previously at 10.00 in stock. -/
theorem C7_missing_price_amended_witness :
    recordObservation none (obsOf 0) 3 = (none, false) ∧
    ((updateHistoryStep 3
        ({ name := "x",
           stores := [("A", { url := none, current_price := some 10,
                              available := true, last_updated := 0 })],
           current_lowest := none, all_time_lowest := none,
           price_changes := [] })
        ("A", { current_price := none, available := none,
                url := none })).price_changes = [] ∧
      lookupAssoc (updateHistoryStep 3
        ({ name := "x",
           stores := [("A", { url := none, current_price := some 10,
                              available := true, last_updated := 0 })],
           current_lowest := none, all_time_lowest := none,
           price_changes := [] })
        ("A", { current_price := none, available := none,
                url := none })).stores "A" =
        some ({ url := none, current_price := none, available := true,
                last_updated := 3 })) ∧
    (updateHistoryStep 3
        ({ name := "x", stores := [], current_lowest := none,
           all_time_lowest := none, price_changes := [] })
        ("B", { current_price := none, available := none,
                url := none })).price_changes =
      [] ++ [EanEvent.initial 3 "B" none true] := by
  refine ⟨?_, ?_, ?_⟩
  · exact C7_missing_price_amended.1 none (obsOf 0) 3 (Or.inr rfl)
  · exact C7_missing_price_amended.2.1 _ "A" _
      ({ url := none, current_price := some 10, available := true,
         last_updated := 0 }) 3 (by simp [lookupAssoc]) rfl rfl
  · exact C7_missing_price_amended.2.2 _ "B" _ 3 rfl

lemma migStep_atl_eq (st : MigState) (x : Nat × LegacyEntry) :
    (migStep st x).all_time_lowest =
      match x.2.current_price with
      | none => st.all_time_lowest
      | some q =>
        match st.all_time_lowest with
        | none => some ({ price := q, date := x.1,
                          original_price := x.2.original_price })
        | some a =>
          if q < a.price then
            some ({ price := q, date := x.1,
                    original_price := x.2.original_price })
          else some a := by
  cases hp : x.2.current_price with
  | none => simp [migStep, hp]
  | some q =>
    cases hpv : st.prev_price with
    | none => simp [migStep, hp, hpv]
    | some prev =>
      by_cases hch : (100 : ℚ)⁻¹ < |q - prev|
      · simp [migStep, hp, hpv, hch, one_div]
      · simp [migStep, hp, hpv, hch, one_div]

lemma migStep_changes_shape (st : MigState) (de : Nat × LegacyEntry) :
    (migStep st de).price_changes = st.price_changes ∨
    ∃ ev, (migStep st de).price_changes = st.price_changes ++ [ev] := by
  cases hp : de.2.current_price with
  | none => exact Or.inl (by simp [migStep, hp])
  | some q =>
    cases hpv : st.prev_price with
    | none =>
      exact Or.inr ⟨PEvent.initial de.1 q de.2.original_price de.2.discount_percent,
        by simp [migStep, hp, hpv]⟩
    | some prev =>
      by_cases hch : (100 : ℚ)⁻¹ < |q - prev|
      · exact Or.inr ⟨PEvent.change de.1 prev q
          (if prev ≠ 0 then round1 ((q - prev) / prev * 100) else 0)
          de.2.original_price de.2.discount_percent,
          by simp [migStep, hp, hpv, hch, one_div]⟩
      · exact Or.inl (by simp [migStep, hp, hpv, hch, one_div])

lemma migFold_changes_suffix (l : List (Nat × LegacyEntry)) :
    ∀ st : MigState,
      ∃ t, (l.foldl migStep st).price_changes = st.price_changes ++ t := by
  induction l with
  | nil => exact fun st => ⟨[], by simp⟩
  | cons x r ih =>
    intro st
    rw [List.foldl_cons]
    obtain ⟨t, ht⟩ := ih (migStep st x)
    rcases migStep_changes_shape st x with h | ⟨ev, hev⟩
    · exact ⟨t, by rw [ht, h]⟩
    · exact ⟨ev :: t, by rw [ht, hev]; simp⟩

lemma migFold_nonempty (l : List (Nat × LegacyEntry)) :
    ∀ st : MigState, st.prev_price = none →
      (∃ de ∈ l, de.2.current_price ≠ none) →
      (l.foldl migStep st).price_changes ≠ [] := by
  induction l with
  | nil =>
    rintro st _ ⟨de, hmem, _⟩
    simp at hmem
  | cons x r ih =>
    rintro st hprev ⟨de, hmem, hdp⟩
    rw [List.foldl_cons]
    cases hp : x.2.current_price with
    | none =>
      have hst : migStep st x = st := by simp [migStep, hp]
      rw [hst]
      refine ih st hprev ⟨de, ?_, hdp⟩
      rcases List.mem_cons.mp hmem with rfl | hmem2
      · exact absurd hp hdp
      · exact hmem2
    | some q =>
      have hst : (migStep st x).price_changes = st.price_changes ++
          [PEvent.initial x.1 q x.2.original_price x.2.discount_percent] := by
        simp [migStep, hp, hprev]
      obtain ⟨t, ht⟩ := migFold_changes_suffix r (migStep st x)
      rw [ht, hst]
      simp

/-- The running all-time-lowest of the migration fold is the minimum of the
non-null snapshot prices, timestamped at the first date attaining it. -/
lemma migFold_atl (l : List (Nat × LegacyEntry)) :
    ∀ st : MigState,
      (∀ a, st.all_time_lowest = some a →
        ∃ a', (l.foldl migStep st).all_time_lowest = some a' ∧
          a'.price ≤ a.price) ∧
      (∀ de ∈ l, ∀ p, de.2.current_price = some p →
        ∃ a', (l.foldl migStep st).all_time_lowest = some a' ∧ a'.price ≤ p) ∧
      ((l.foldl migStep st).all_time_lowest = st.all_time_lowest ∨
        ∃ a', (l.foldl migStep st).all_time_lowest = some a' ∧
          (∀ a, st.all_time_lowest = some a → a'.price < a.price) ∧
          ∃ pre e post, l = pre ++ e :: post ∧
            e.2.current_price = some a'.price ∧ e.1 = a'.date ∧
            ∀ de ∈ pre, ∀ p, de.2.current_price = some p → a'.price < p) := by
  induction l with
  | nil =>
    intro st
    exact ⟨fun a ha => ⟨a, ha, le_refl _⟩, by simp, Or.inl rfl⟩
  | cons x r ih =>
    intro st
    rw [List.foldl_cons]
    obtain ⟨ih1, ih2, ih3⟩ := ih (migStep st x)
    cases hp : x.2.current_price with
    | none =>
      have hsame : (migStep st x).all_time_lowest = st.all_time_lowest := by
        rw [migStep_atl_eq, hp]
      refine ⟨?_, ?_, ?_⟩
      · intro a ha
        exact ih1 a (by rw [hsame]; exact ha)
      · intro de hmem p hdp
        rcases List.mem_cons.mp hmem with rfl | hmem2
        · rw [hp] at hdp; cases hdp
        · exact ih2 de hmem2 p hdp
      · rcases ih3 with h | ⟨a', ha', hlt, pre, e, post, hsplit, he1, he2, hpre⟩
        · exact Or.inl (by rw [h, hsame])
        · refine Or.inr ⟨a', ha', fun a ha => hlt a (by rw [hsame]; exact ha),
            x :: pre, e, post, by rw [hsplit, List.cons_append], he1, he2, ?_⟩
          intro de hmem p hdp
          rcases List.mem_cons.mp hmem with rfl | hmem2
          · rw [hp] at hdp; cases hdp
          · exact hpre de hmem2 p hdp
    | some q =>
      -- the step's all-time-lowest a₁ and its key facts
      obtain ⟨a₁, hA1, hle_q, hle_old, hnewOrOld⟩ :
          ∃ a₁, (migStep st x).all_time_lowest = some a₁ ∧ a₁.price ≤ q ∧
            (∀ a, st.all_time_lowest = some a → a₁.price ≤ a.price) ∧
            ((a₁.price = q ∧ a₁.date = x.1 ∧
              (∀ a, st.all_time_lowest = some a → q < a.price)) ∨
              st.all_time_lowest = some a₁) := by
        cases ha : st.all_time_lowest with
        | none =>
          refine ⟨({ price := q, date := x.1,
                     original_price := x.2.original_price }),
            by simp only [migStep_atl_eq, hp, ha], le_refl _, ?_, ?_⟩
          · intro a haa; exact Option.noConfusion haa
          · exact Or.inl ⟨rfl, rfl, fun a haa => Option.noConfusion haa⟩
        | some a =>
          by_cases hql : q < a.price
          · refine ⟨({ price := q, date := x.1,
                       original_price := x.2.original_price }),
              by simp only [migStep_atl_eq, hp, ha, if_pos hql], le_refl _, ?_, ?_⟩
            · intro a0 ha0
              cases Option.some_inj.mp ha0
              exact le_of_lt hql
            · refine Or.inl ⟨rfl, rfl, ?_⟩
              intro a0 ha0
              cases Option.some_inj.mp ha0
              exact hql
          · refine ⟨a, by simp only [migStep_atl_eq, hp, ha, if_neg hql],
              not_lt.mp hql, ?_, Or.inr rfl⟩
            intro a0 ha0
            cases Option.some_inj.mp ha0
            exact le_refl _
      refine ⟨?_, ?_, ?_⟩
      · intro a ha
        obtain ⟨a', ha', hle⟩ := ih1 a₁ hA1
        exact ⟨a', ha', le_trans hle (hle_old a ha)⟩
      · intro de hmem p hdp
        rcases List.mem_cons.mp hmem with rfl | hmem2
        · rw [hp] at hdp
          obtain ⟨a', ha', hle⟩ := ih1 a₁ hA1
          exact ⟨a', ha', le_trans hle (Option.some_inj.mp hdp ▸ hle_q)⟩
        · exact ih2 de hmem2 p hdp
      · rcases ih3 with h | ⟨a', ha', hlt₁, pre, e, post, hsplit, he1, he2, hpre⟩
        · -- the tail did not change the all-time-lowest: it is a₁
          rcases hnewOrOld with ⟨hq, hd, hstrict⟩ | hold
          · refine Or.inr ⟨a₁, by rw [h]; exact hA1, ?_, [], x, r, by simp, ?_,
              hd.symm, ?_⟩
            · intro a ha
              rw [hq]
              exact hstrict a ha
            · rw [hp, hq]
            · intro de hmem p hdp
              simp at hmem
          · exact Or.inl (by rw [h, hA1, hold])
        · refine Or.inr ⟨a', ha', ?_, x :: pre, e, post,
            by rw [hsplit, List.cons_append], he1, he2, ?_⟩
          · intro a ha
            exact lt_of_lt_of_le (hlt₁ a₁ hA1) (hle_old a ha)
          · intro de hmem p hdp
            rcases List.mem_cons.mp hmem with rfl | hmem2
            · rw [hp] at hdp
              exact lt_of_lt_of_le (hlt₁ a₁ hA1)
                (Option.some_inj.mp hdp ▸ hle_q)
            · exact hpre de hmem2 p hdp

/-- C5 (confirmed): migrating a legacy daily-snapshot history with at least
one non-null price yields a product whose `all_time_lowest` is the minimum
over all non-null snapshot prices, dated at the first snapshot attaining
that minimum, and whose `CurrentState.price` is the price of the
chronologically last snapshot — exactly min/last computed directly over the
raw legacy entries (src/migrate_price_history.py 55-148). -/
theorem C5_migration_preserves (name purchase_url : String)
    (entries : List (Nat × LegacyEntry))
    (hex : ∃ de ∈ entries, de.2.current_price ≠ none) :
    ∃ np atl lastE, migrateProduct name purchase_url entries = some np ∧
      entries.getLast? = some lastE ∧
      np.current.price = lastE.2.current_price ∧
      np.all_time_lowest = some atl ∧
      (∀ de ∈ entries, ∀ p, de.2.current_price = some p → atl.price ≤ p) ∧
      (∃ pre e post, entries = pre ++ e :: post ∧
        e.2.current_price = some atl.price ∧ e.1 = atl.date ∧
        ∀ de ∈ pre, ∀ p, de.2.current_price = some p → atl.price < p) := by
  obtain ⟨de0, hmem0, hne0⟩ := hex
  have hnil : entries ≠ [] := by
    intro h; rw [h] at hmem0; simp at hmem0
  obtain ⟨lastE, hlast⟩ : ∃ x, entries.getLast? = some x := by
    cases hl : entries.getLast? with
    | some a => exact ⟨a, rfl⟩
    | none => exact absurd (List.getLast?_eq_none_iff.mp hl) hnil
  have hch : (entries.foldl migStep
      ({ price_changes := [], prev_price := none,
         current_price_since := none, all_time_lowest := none })).price_changes ≠ [] :=
    migFold_nonempty entries _ rfl ⟨de0, hmem0, hne0⟩
  obtain ⟨f1, f2, f3⟩ := migFold_atl entries
    ({ price_changes := [], prev_price := none,
       current_price_since := none, all_time_lowest := none })
  obtain ⟨p0, hp0⟩ : ∃ p0, de0.2.current_price = some p0 :=
    Option.ne_none_iff_exists'.mp hne0
  obtain ⟨atl, hatl, _⟩ := f2 de0 hmem0 p0 hp0
  have hmin : ∀ de ∈ entries, ∀ p, de.2.current_price = some p → atl.price ≤ p := by
    intro de hmem p hdp
    obtain ⟨a'', ha'', hle⟩ := f2 de hmem p hdp
    rwa [Option.some_inj.mp (ha''.symm.trans hatl)] at hle
  have hfirst : ∃ pre e post, entries = pre ++ e :: post ∧
      e.2.current_price = some atl.price ∧ e.1 = atl.date ∧
      ∀ de ∈ pre, ∀ p, de.2.current_price = some p → atl.price < p := by
    rcases f3 with h | ⟨a', ha', _, pre, e, post, hsplit, he1, he2, hpre⟩
    · rw [hatl] at h; exact Option.noConfusion h
    · obtain rfl : a' = atl := Option.some_inj.mp (ha'.symm.trans hatl)
      exact ⟨pre, e, post, hsplit, he1, he2, hpre⟩
  have hres : migrateProduct name purchase_url entries =
      some ({ name := name, purchase_url := purchase_url,
              current := { price := lastE.2.current_price,
                           original_price := lastE.2.original_price,
                           discount_pct := lastE.2.discount_percent,
                           since := (entries.foldl migStep
                             ({ price_changes := [], prev_price := none,
                                current_price_since := none,
                                all_time_lowest := none })).current_price_since },
              all_time_lowest := (entries.foldl migStep
                ({ price_changes := [], prev_price := none,
                   current_price_since := none,
                   all_time_lowest := none })).all_time_lowest,
              price_changes := (entries.foldl migStep
                ({ price_changes := [], prev_price := none,
                   current_price_since := none,
                   all_time_lowest := none })).price_changes }) := by
    rw [migrateProduct]
    simp only [if_neg hch, hlast]
  exact ⟨_, atl, lastE, hres, hlast, rfl, hatl, hmin, hfirst⟩

/-- C5 witness: the legacy history 35.96, 35.96, 30.00 over three days
migrates to a product with `all_time_lowest` 30.00 first reached on day 2
and a current price of 30.00 — the min and last of the raw snapshots. -/
theorem C5_migration_preserves_witness :
    ∃ np atl lastE,
      migrateProduct "n" "u"
          [(0, { current_price := some (899/25), original_price := none,
                 discount_percent := none }),
           (1, { current_price := some (899/25), original_price := none,
                 discount_percent := none }),
           (2, { current_price := some 30, original_price := none,
                 discount_percent := none })] = some np ∧
      [(0, ({ current_price := some (899/25), original_price := none,
              discount_percent := none } : LegacyEntry)),
       (1, { current_price := some (899/25), original_price := none,
             discount_percent := none }),
       (2, { current_price := some 30, original_price := none,
             discount_percent := none })].getLast? = some lastE ∧
      np.current.price = lastE.2.current_price ∧
      np.all_time_lowest = some atl ∧
      (∀ de ∈ [(0, ({ current_price := some (899/25), original_price := none,
                      discount_percent := none } : LegacyEntry)),
               (1, { current_price := some (899/25), original_price := none,
                     discount_percent := none }),
               (2, { current_price := some 30, original_price := none,
                     discount_percent := none })],
        ∀ p, de.2.current_price = some p → atl.price ≤ p) ∧
      (∃ pre e post,
        [(0, ({ current_price := some (899/25), original_price := none,
                discount_percent := none } : LegacyEntry)),
         (1, { current_price := some (899/25), original_price := none,
               discount_percent := none }),
         (2, { current_price := some 30, original_price := none,
               discount_percent := none })] = pre ++ e :: post ∧
        e.2.current_price = some atl.price ∧ e.1 = atl.date ∧
        ∀ de ∈ pre, ∀ p, de.2.current_price = some p → atl.price < p) :=
  C5_migration_preserves "n" "u" _
    ⟨(0, { current_price := some (899/25), original_price := none,
           discount_percent := none }), List.mem_cons_self _ _, by simp⟩

lemma lookup_setAssoc_other {α : Type} (l : List (String × α)) (k k' : String)
    (v : α) (h : k' ≠ k) :
    lookupAssoc (setAssoc l k v) k' = lookupAssoc l k' := by
  induction l with
  | nil =>
    simp only [setAssoc, lookupAssoc]
    rw [if_neg (fun hh => h hh.symm)]
  | cons x t ih =>
    by_cases hx : x.1 = k
    · simp only [setAssoc, if_pos hx, lookupAssoc]
      rw [if_neg (fun hh => h hh.symm), if_neg (by rw [hx]; exact fun hh => h hh.symm)]
    · simp only [setAssoc, if_neg hx, lookupAssoc, ih]

lemma backupName_ne (path : String) (ts : Nat) : backupName path ts ≠ path := by
  intro h
  have hlen := congrArg String.length h
  rw [backupName, String.length_append, String.length_append] at hlen
  have h8 : (".backup." : String).length = 8 := rfl
  omega

lemma migrateProduct_changes_ne (n u : String) (e : List (Nat × LegacyEntry))
    (np : NewProduct) (h : migrateProduct n u e = some np) :
    np.price_changes ≠ [] := by
  rw [migrateProduct] at h
  by_cases hch : (e.foldl migStep
      ({ price_changes := [], prev_price := none,
         current_price_since := none, all_time_lowest := none })).price_changes = []
  · rw [if_pos hch] at h; exact Option.noConfusion h
  · rw [if_neg hch] at h
    cases hl : e.getLast? with
    | none => rw [hl] at h; exact Option.noConfusion h
    | some last =>
      rw [hl] at h
      cases Option.some_inj.mp h
      exact hch

lemma mem_migrateStore_changes_ne (old : List (String × LegacyProduct)) :
    ∀ kp ∈ migrateStore old, kp.2.price_changes ≠ [] := by
  have hgen : ∀ (l : List (String × LegacyProduct))
      (acc : List (String × NewProduct)),
      (∀ kp ∈ acc, kp.2.price_changes ≠ []) →
      ∀ kp ∈ l.foldl (fun acc kp =>
        match migrateProduct kp.2.name kp.2.purchase_url kp.2.price_history with
        | none => acc
        | some np => acc ++ [(kp.1, np)]) acc, kp.2.price_changes ≠ [] := by
    intro l
    induction l with
    | nil => exact fun acc hacc => hacc
    | cons x t ih =>
      intro acc hacc
      rw [List.foldl_cons]
      cases hm : migrateProduct x.2.name x.2.purchase_url x.2.price_history with
      | none => simpa [hm] using ih acc hacc
      | some np =>
        simp only [hm]
        refine ih _ ?_
        intro kp hkp
        rcases List.mem_append.mp hkp with h1 | h2
        · exact hacc kp h1
        · rw [List.mem_singleton.mp h2]
          exact migrateProduct_changes_ne _ _ _ _ hm
  exact hgen old [] (by simp)

lemma storeEventCount_zero_iff (s : List (String × NewProduct))
    (h : ∀ kp ∈ s, kp.2.price_changes ≠ []) :
    storeEventCount s = 0 ↔ s = [] := by
  cases s with
  | nil => simp [storeEventCount]
  | cons x t =>
    simp only [storeEventCount, List.map_cons, List.sum_cons]
    constructor
    · intro hz
      have hx := h x (List.mem_cons_self _ _)
      have : x.2.price_changes.length = 0 := by omega
      exact absurd (List.length_eq_zero.mp this) hx
    · intro hh; exact absurd hh (List.cons_ne_nil _ _)

/-- C8 (confirmed): when migration derives zero output events,
`backup_and_migrate` returns failure and the original file still holds its
old contents; when it derives at least one event, the function succeeds,
the timestamped backup holds the original contents (written before the
overwrite), and the original path holds the migrated data
(src/migrate_price_history.py 263-286). -/
theorem C8_backup_before_overwrite (fs : FS) (path : String) (ts : Nat)
    (c : FileContent) (hc : lookupAssoc fs path = some c) :
    (storeEventCount (migrateFile c) = 0 →
      (backupAndMigrate fs path ts).1 = false ∧
      lookupAssoc (backupAndMigrate fs path ts).2 path = some c) ∧
    (storeEventCount (migrateFile c) ≠ 0 →
      (backupAndMigrate fs path ts).1 = true ∧
      lookupAssoc (backupAndMigrate fs path ts).2 (backupName path ts) = some c ∧
      lookupAssoc (backupAndMigrate fs path ts).2 path =
        some (FileContent.migrated (migrateFile c))) := by
  have hne := backupName_ne path ts
  constructor
  · intro hz
    have hempty : migrateFile c = [] := by
      cases hcc : c with
      | legacy s =>
        rw [hcc] at hz
        exact (storeEventCount_zero_iff _ (mem_migrateStore_changes_ne s)).mp hz
      | migrated s => rfl
    have hres : backupAndMigrate fs path ts =
        (false, setAssoc fs (backupName path ts) c) := by
      simp [backupAndMigrate, hc, hempty]
    rw [hres]
    exact ⟨rfl, by rw [lookup_setAssoc_other _ _ _ _ (fun hh => hne hh.symm)]; exact hc⟩
  · intro hz
    have hnonempty : migrateFile c ≠ [] := by
      intro hh; rw [hh] at hz; exact hz rfl
    have hres : backupAndMigrate fs path ts =
        (true, setAssoc (setAssoc fs (backupName path ts) c) path
          (FileContent.migrated (migrateFile c))) := by
      simp [backupAndMigrate, hc, hnonempty]
    rw [hres]
    refine ⟨rfl, ?_, ?_⟩
    · rw [lookup_setAssoc_other _ _ _ _ hne]
      exact lookup_setAssoc_self _ _ _
    · exact lookup_setAssoc_self _ _ _

/-- C8 witness: on `exFS`, migration derives one event, so the run
succeeds, the timestamped backup holds the legacy contents and the
original path holds the migrated data. -/
theorem C8_backup_before_overwrite_witness :
    (storeEventCount (migrateFile (FileContent.legacy exLegacyStore)) = 0 →
      (backupAndMigrate exFS "db" 5).1 = false ∧
      lookupAssoc (backupAndMigrate exFS "db" 5).2 "db" =
        some (FileContent.legacy exLegacyStore)) ∧
    (storeEventCount (migrateFile (FileContent.legacy exLegacyStore)) ≠ 0 →
      (backupAndMigrate exFS "db" 5).1 = true ∧
      lookupAssoc (backupAndMigrate exFS "db" 5).2 (backupName "db" 5) =
        some (FileContent.legacy exLegacyStore) ∧
      lookupAssoc (backupAndMigrate exFS "db" 5).2 "db" =
        some (FileContent.migrated
          (migrateFile (FileContent.legacy exLegacyStore)))) :=
  C8_backup_before_overwrite exFS "db" 5 (FileContent.legacy exLegacyStore)
    (by simp [exFS, lookupAssoc])
